import Mathlib

/-!
Verification of the Othello rules engine (`othello.js` and its 8×8 variant).

The JavaScript program is shallowly embedded: the board is a total function
from (row, col) to an optional piece color, the `checkForClosure` `while`
loop becomes a fuel-indexed recursion (`closureLoop`) whose fuel bound is
itself proved sufficient, and the `flipPieces` counting loops become folds
over explicit trip-count ranges.  The board size, a static constant in the
source (26 in one variant, 8 in the other), is a parameter `size`
throughout, exactly as every source loop is written against it.
-/

namespace Othello

/-- The two piece colors, from `class Color` (`BLACK`/`WHITE`). -/
inductive Color
  | black
  | white
deriving DecidableEq

/-- The other color: `curPlayer === Color.BLACK ? Color.WHITE : Color.BLACK`. -/
def Color.op : Color → Color
  | .black => .white
  | .white => .black

/-- A board cell: `null` (empty) or a piece color. -/
abbrev Cell := Option Color

/-- `board.positions`: a grid of cells, addressed `positions[row][col]`.
Cells at indices at or beyond `size` are never read by the embedded code
under its bounds guards. -/
abbrev Board := Nat → Nat → Cell

/-- `class Coordinate`: a (row, col) pair. -/
structure Coordinate where
  row : Nat
  col : Nat
deriving DecidableEq

/-- The 8 scan directions, from `Othello.DIRECTIONS`. -/
inductive Dir
  | left
  | leftUp
  | up
  | rightUp
  | right
  | rightDown
  | down
  | leftDown
deriving DecidableEq

/-- `Othello.DIRECTIONS` in source order. -/
def allDirs : List Dir :=
  [.left, .leftUp, .up, .rightUp, .right, .rightDown, .down, .leftDown]

/-- The per-iteration cursor step of each direction, as a (Δrow, Δcol)
unit vector (e.g. `left` does `checkCol--`). -/
def delta : Dir → Int × Int
  | .left => (0, -1)
  | .leftUp => (-1, -1)
  | .up => (-1, 0)
  | .rightUp => (-1, 1)
  | .right => (0, 1)
  | .rightDown => (1, 1)
  | .down => (1, 0)
  | .leftDown => (1, -1)

/-- The value of the `val` variable in `checkForClosure`: it starts as the
number `0`, and afterwards holds a cell value (`null` or a color). -/
inductive JVal
  | vzero
  | vnull
  | vcolor (c : Color)
deriving DecidableEq

/-- Reading a cell into `val`. -/
def cellVal : Cell → JVal
  | none => .vnull
  | some c => .vcolor c

/-- One execution of the `switch (direction)` body inside the scan loop of
`checkForClosure`: guard on the next cell's moved axes, read it into `val`
(counting an opposing piece into `flipCount`), then step the cursor.  The
guards replicate the source exactly: straight directions only test the
moving axis, diagonals test both; reads happen only under the guard plus
the loop condition, which together keep both indices in range. -/
def scanStep (size : Nat) (b : Board) (color : Color) (d : Dir)
    (val : JVal) (checkRow checkCol : Int) (flipCount : Nat) :
    JVal × Int × Int × Nat :=
  match d with
  | .left =>
    if 0 ≤ checkCol - 1 then
      let v := cellVal (b checkRow.toNat (checkCol - 1).toNat)
      (v, checkRow, checkCol - 1,
        if v ≠ JVal.vcolor color ∧ v ≠ JVal.vnull then flipCount + 1 else flipCount)
    else (val, checkRow, checkCol - 1, flipCount)
  | .leftUp =>
    if 0 ≤ checkCol - 1 ∧ 0 ≤ checkRow - 1 then
      let v := cellVal (b (checkRow - 1).toNat (checkCol - 1).toNat)
      (v, checkRow - 1, checkCol - 1,
        if v ≠ JVal.vcolor color ∧ v ≠ JVal.vnull then flipCount + 1 else flipCount)
    else (val, checkRow - 1, checkCol - 1, flipCount)
  | .up =>
    if 0 ≤ checkRow - 1 then
      let v := cellVal (b (checkRow - 1).toNat checkCol.toNat)
      (v, checkRow - 1, checkCol,
        if v ≠ JVal.vcolor color ∧ v ≠ JVal.vnull then flipCount + 1 else flipCount)
    else (val, checkRow - 1, checkCol, flipCount)
  | .rightUp =>
    if checkCol + 1 < (size : Int) ∧ 0 ≤ checkRow - 1 then
      let v := cellVal (b (checkRow - 1).toNat (checkCol + 1).toNat)
      (v, checkRow - 1, checkCol + 1,
        if v ≠ JVal.vcolor color ∧ v ≠ JVal.vnull then flipCount + 1 else flipCount)
    else (val, checkRow - 1, checkCol + 1, flipCount)
  | .right =>
    if checkCol + 1 < (size : Int) then
      let v := cellVal (b checkRow.toNat (checkCol + 1).toNat)
      (v, checkRow, checkCol + 1,
        if v ≠ JVal.vcolor color ∧ v ≠ JVal.vnull then flipCount + 1 else flipCount)
    else (val, checkRow, checkCol + 1, flipCount)
  | .rightDown =>
    if checkCol + 1 < (size : Int) ∧ checkRow + 1 < (size : Int) then
      let v := cellVal (b (checkRow + 1).toNat (checkCol + 1).toNat)
      (v, checkRow + 1, checkCol + 1,
        if v ≠ JVal.vcolor color ∧ v ≠ JVal.vnull then flipCount + 1 else flipCount)
    else (val, checkRow + 1, checkCol + 1, flipCount)
  | .down =>
    if checkRow + 1 < (size : Int) then
      let v := cellVal (b (checkRow + 1).toNat checkCol.toNat)
      (v, checkRow + 1, checkCol,
        if v ≠ JVal.vcolor color ∧ v ≠ JVal.vnull then flipCount + 1 else flipCount)
    else (val, checkRow + 1, checkCol, flipCount)
  | .leftDown =>
    if 0 ≤ checkCol - 1 ∧ checkRow + 1 < (size : Int) then
      let v := cellVal (b (checkRow + 1).toNat (checkCol - 1).toNat)
      (v, checkRow + 1, checkCol - 1,
        if v ≠ JVal.vcolor color ∧ v ≠ JVal.vnull then flipCount + 1 else flipCount)
    else (val, checkRow + 1, checkCol - 1, flipCount)

/-- The `while` condition of the scan loop:
`val !== null && val !== color && checkCol >= 0 && checkRow >= 0 &&
 checkCol < SIZE && checkRow < SIZE`. -/
abbrev loopCond (size : Nat) (color : Color) (val : JVal)
    (checkRow checkCol : Int) : Prop :=
  val ≠ JVal.vnull ∧ val ≠ JVal.vcolor color ∧ 0 ≤ checkCol ∧ 0 ≤ checkRow ∧
    checkCol < (size : Int) ∧ checkRow < (size : Int)

/-- The scan `while` loop of `checkForClosure`, as a fuel-indexed
recursion.  The condition is tested before fuel is consumed, so fuel counts
exactly the body executions; `none` marks fuel exhaustion (shown later to
be unreachable with `size` fuel from an in-bounds start). -/
def closureLoop (size : Nat) (b : Board) (color : Color) (d : Dir) :
    Nat → JVal → Int → Int → Nat → Option (JVal × Int × Int × Nat)
  | 0, val, checkRow, checkCol, flipCount =>
    if loopCond size color val checkRow checkCol then none
    else some (val, checkRow, checkCol, flipCount)
  | fuel + 1, val, checkRow, checkCol, flipCount =>
    if loopCond size color val checkRow checkCol then
      let s := scanStep size b color d val checkRow checkCol flipCount
      closureLoop size b color d fuel s.1 s.2.1 s.2.2.1 s.2.2.2
    else
      some (val, checkRow, checkCol, flipCount)

/-- The closure record returned by `checkForClosure`:
`{ direction, start, end, flipCount }` with `start`/`end` stored as
`[col, row]` pairs as in the source. -/
structure Closure where
  direction : Dir
  start : Int × Int
  endp : Int × Int
  flipCount : Nat
deriving DecidableEq

/-- `Othello.checkForClosure(color, coords, direction)`: run the scan loop
from the candidate cell with `val = 0`, `flipCount = 0`; a closure is
returned iff the loop stopped on `val === color` with `flipCount > 0`. -/
def checkForClosure (size : Nat) (b : Board) (color : Color)
    (coords : Coordinate) (d : Dir) : Option Closure :=
  match closureLoop size b color d size .vzero (coords.row : Int) (coords.col : Int) 0 with
  | none => none
  | some (val, checkRow, checkCol, flipCount) =>
    if val = JVal.vcolor color ∧ 0 < flipCount then
      some ⟨d, ((coords.col : Int), (coords.row : Int)), (checkCol, checkRow), flipCount⟩
    else none

/-- `Othello.getClosures(color, coords)`: collect the non-null closures of
the 8 directions, in `DIRECTIONS` order. -/
def getClosures (size : Nat) (b : Board) (color : Color)
    (coords : Coordinate) : List Closure :=
  allDirs.filterMap (fun d => checkForClosure size b color coords d)

/-- `Othello.validateMove(coords, color)`: `none` models the source's
`false` (cell occupied, or no direction closes); otherwise the closure
list. -/
def validateMove (size : Nat) (b : Board) (coords : Coordinate)
    (color : Color) : Option (List Closure) :=
  if b coords.row coords.col ≠ none then none
  else
    let closures := getClosures size b color coords
    if closures = [] then none else some closures

/-- Writing one cell, `positions[row][col] = color`, with `Int` indices as
used inside `flipPieces` (all writes proved in range for closure-shaped
arguments). -/
def setCellI (b : Board) (r c : Int) (v : Cell) : Board :=
  fun r' c' => if (r' : Int) = r ∧ (c' : Int) = c then v else b r' c'

/-- Writing one cell with `Nat` indices (the piece placement in `play`). -/
def setCell (b : Board) (row col : Nat) (v : Cell) : Board :=
  fun r' c' => if r' = row ∧ c' = col then v else b r' c'

/-- `Othello.flipPieces(start, end, direction, color)`.  Each source branch
writes cells from `start` toward `end` while the loop comparison holds; the
trip count of each `for`/`while` is computed explicitly (`+1` because both
endpoints are written when the entry test holds). -/
def flipPieces (b : Board) (start endp : Int × Int) (d : Dir)
    (color : Color) : Board :=
  let startCol := start.1
  let startRow := start.2
  let endCol := endp.1
  let endRow := endp.2
  match d with
  | .left =>
    if endCol ≤ startCol then
      (List.range ((startCol - endCol).toNat + 1)).foldl
        (fun bd (k : Nat) => setCellI bd startRow (startCol - (k : Int)) (some color)) b
    else b
  | .leftUp =>
    if endCol ≤ startCol ∧ endRow ≤ startRow then
      (List.range (min (startCol - endCol).toNat (startRow - endRow).toNat + 1)).foldl
        (fun bd (k : Nat) => setCellI bd (startRow - (k : Int)) (startCol - (k : Int)) (some color)) b
    else b
  | .up =>
    if endRow ≤ startRow then
      (List.range ((startRow - endRow).toNat + 1)).foldl
        (fun bd (k : Nat) => setCellI bd (startRow - (k : Int)) startCol (some color)) b
    else b
  | .rightUp =>
    if startCol ≤ endCol ∧ endRow ≤ startRow then
      (List.range (min (endCol - startCol).toNat (startRow - endRow).toNat + 1)).foldl
        (fun bd (k : Nat) => setCellI bd (startRow - (k : Int)) (startCol + (k : Int)) (some color)) b
    else b
  | .right =>
    if startCol ≤ endCol then
      (List.range ((endCol - startCol).toNat + 1)).foldl
        (fun bd (k : Nat) => setCellI bd startRow (startCol + (k : Int)) (some color)) b
    else b
  | .rightDown =>
    if startCol ≤ endCol ∧ startRow ≤ endRow then
      (List.range (min (endCol - startCol).toNat (endRow - startRow).toNat + 1)).foldl
        (fun bd (k : Nat) => setCellI bd (startRow + (k : Int)) (startCol + (k : Int)) (some color)) b
    else b
  | .down =>
    if startRow ≤ endRow then
      (List.range ((endRow - startRow).toNat + 1)).foldl
        (fun bd (k : Nat) => setCellI bd (startRow + (k : Int)) startCol (some color)) b
    else b
  | .leftDown =>
    if endCol ≤ startCol ∧ startRow ≤ endRow then
      (List.range (min (startCol - endCol).toNat (endRow - startRow).toNat + 1)).foldl
        (fun bd (k : Nat) => setCellI bd (startRow + (k : Int)) (startCol - (k : Int)) (some color)) b
    else b

/-- The accepted-move mutation in `play`: place the piece
(`positions[move.row][move.col] = curPlayer`) then flip each returned
closure in order. -/
def applyMove (b : Board) (move : Coordinate) (color : Color)
    (cls : List Closure) : Board :=
  cls.foldl (fun bd cl => flipPieces bd cl.start cl.endp cl.direction color)
    (setCell b move.row move.col (some color))

/-- `Othello.getScores()`: a full-grid recount of black and white pieces,
returned as (black, white). -/
def getScores (size : Nat) (b : Board) : Nat × Nat :=
  (((Finset.range size ×ˢ Finset.range size).filter
      (fun p => b p.1 p.2 = some Color.black)).card,
   ((Finset.range size ×ˢ Finset.range size).filter
      (fun p => b p.1 p.2 = some Color.white)).card)

/-- `Othello.playerHasAnyValidMoves(color)`: scan the whole grid for a cell
whose `validateMove` is not `false`. -/
def playerHasAnyValidMoves (size : Nat) (b : Board) (color : Color) : Bool :=
  (List.range size).any fun row =>
    (List.range size).any fun col =>
      (validateMove size b ⟨row, col⟩ color).isSome

/-- `Othello.getAllValidMoves(color)`: the same grid scan, pushing each
valid coordinate. -/
def getAllValidMoves (size : Nat) (b : Board) (color : Color) : List Coordinate :=
  (List.range size).foldl
    (fun acc row =>
      (List.range size).foldl
        (fun acc2 col =>
          if (validateMove size b ⟨row, col⟩ color).isSome then
            acc2 ++ [⟨row, col⟩]
          else acc2)
        acc)
    []

/-- Game outcome printed at termination. -/
inductive Winner
  | blackWins
  | whiteWins
  | tie
deriving DecidableEq

/-- The terminal comparison in `play`: equal scores are a tie, otherwise
the strictly higher count wins (source: `black === white` / `black > white`
/ else white). -/
def winnerOf (sc : Nat × Nat) : Winner :=
  if sc.1 = sc.2 then .tie
  else if sc.2 < sc.1 then .blackWins
  else .whiteWins

/-- The mutable game fields of `Othello` that one turn of `play` touches:
`board`, `scores`, `curPlayer`. -/
structure GameState where
  board : Board
  scores : Nat × Nat
  curPlayer : Color

/-- What one iteration of the `play` loop does with a proposed move:
rejected (`Invalid move. Try again.` + `continue`), accepted (with a flag
recording whether the opponent's turn was skipped), or game over. -/
inductive StepOutcome
  | rejected (g : GameState)
  | accepted (g : GameState) (skipped : Bool)
  | finished (g : GameState) (w : Winner)

/-- One move-processing pass of the `play` loop: validate; on failure
`continue` with nothing touched; on success place the piece, flip all
closures, recompute scores, switch players, then run the skip / terminal
checks (the terminal branch leaves `curPlayer` flipped back to the
original mover, as the source does before `break`). -/
def stepMove (size : Nat) (g : GameState) (move : Coordinate) : StepOutcome :=
  match validateMove size g.board move g.curPlayer with
  | none => .rejected g
  | some closures =>
    let b2 := applyMove g.board move g.curPlayer closures
    let sc := getScores size b2
    let next := g.curPlayer.op
    if playerHasAnyValidMoves size b2 next then
      .accepted ⟨b2, sc, next⟩ false
    else if playerHasAnyValidMoves size b2 g.curPlayer then
      .accepted ⟨b2, sc, g.curPlayer⟩ true
    else
      .finished ⟨b2, sc, g.curPlayer⟩ (winnerOf sc)

/-- The `Othello` constructor: `if (Othello.SIZE > 26) throw`, else a fresh
all-null board.  `none` models the thrown `BoardOutOfBoundsException`. -/
def newGame (size : Nat) : Option Board :=
  if size > 26 then none else some (fun _ _ => none)

/-- Result of `parseCoordinate`: a thrown `CoordinateParseException`
message, or the constructed coordinate.  The row is `Option Int` because
`parseInt` can yield `NaN` (modelled as `none`), which the source stores
into the coordinate unchecked. -/
inductive ParseResult
  | err (msg : String)
  | ok (row : Option Int) (col : Int)
deriving DecidableEq

/-- The leading digit run of a string, as read by `parseInt`. -/
def leadingDigits : List Char → List Char
  | [] => []
  | ch :: t => if ch.isDigit then ch :: leadingDigits t else []

/-- Value of a digit list. -/
def digitsToNat (l : List Char) : Nat :=
  l.foldl (fun a ch => a * 10 + (ch.toNat - '0'.toNat)) 0

/-- `parseInt` on the row substring: the longest leading digit run, `NaN`
(`none`) when there is none.  (Signs and leading whitespace, which
`parseInt` would also accept, do not occur in 2–3 character move tokens
that pass the column check.) -/
def jsParseInt (s : List Char) : Option Int :=
  match leadingDigits s with
  | [] => none
  | ds => some ((digitsToNat ds : Nat) : Int)

/-- The JS comparison `row < 0` where `row` may be `NaN`: `NaN < 0` is
false. -/
def jsLtZero : Option Int → Bool
  | some r => r < 0
  | none => false

/-- `Othello.parseCoordinate(input)`.  Note the source's second bounds
check: `if (row < 0 || col > Othello.SIZE - 1)` — it re-tests `col`, not
`row`, before throwing "Row out of bounds". -/
def parseCoordinate (size : Nat) (input : List Char) : ParseResult :=
  if input.length < 2 ∨ input.length > 3 then
    .err "Input must be length 2 or 3"
  else
    match input with
    | [] => .err "Input must be length 2 or 3"
    | c0 :: rest =>
      let col : Int := (c0.toNat : Int) - ('a'.toNat : Int)
      if col < 0 ∨ col > (size : Int) - 1 then .err "Column out of bounds"
      else
        let row : Option Int := (jsParseInt rest).map (fun v => v - 1)
        if jsLtZero row = true ∨ col > (size : Int) - 1 then
          .err "Row out of bounds"
        else .ok row col

/-- Reading `coordinate.flipCount` in the auto-move block of `play`:
`Coordinate` has no such field, so the read yields `undefined` (`none`). -/
def coordFlipCount (_ : Coordinate) : Option Nat := none

/-- JS `>` on possibly-`undefined` numbers: any comparison with
`undefined` is false. -/
def jsGT : Option Nat → Option Nat → Bool
  | some a, some b => decide (b < a)
  | _, _ => false

/-- JS `===` on possibly-`undefined` numbers. -/
def jsEqNum : Option Nat → Option Nat → Bool
  | some a, some b => decide (a = b)
  | none, none => true
  | _, _ => false

/-- The auto-move candidate collection in `play`:
`bestMoves = [validMoves[0]]`, `bestMove = validMoves[0]`, then one pass
comparing the (nonexistent) `flipCount` fields; the final random pick is
over the resulting list. -/
def autoBestMoves (validMoves : List Coordinate) : List Coordinate :=
  match validMoves with
  | [] => []
  | m0 :: _ =>
    (validMoves.foldl
      (fun (st : List Coordinate × Coordinate) m =>
        if jsGT (coordFlipCount m) (coordFlipCount st.2) then (st.1 ++ [m], m)
        else if jsEqNum (coordFlipCount m) (coordFlipCount st.2) then
          (st.1 ++ [m], st.2)
        else st)
      ([m0], m0)).1

/-- The move's total capture count named by the spec's heuristic: the sum
of `flipCount` over all closures of the move (0 for an illegal move). -/
def totalFlips (size : Nat) (b : Board) (color : Color)
    (m : Coordinate) : Nat :=
  match validateMove size b m color with
  | none => 0
  | some cls => (cls.map Closure.flipCount).sum

/-! ### Specification-side vocabulary used to state the claims -/

/-- The cell `k` steps from the candidate cell along direction `d`, as an
(row, col) pair of integers. -/
def posAt (coords : Coordinate) (d : Dir) (k : Nat) : Int × Int :=
  ((coords.row : Int) + (k : Int) * (delta d).1,
   (coords.col : Int) + (k : Int) * (delta d).2)

/-- An (row, col) integer pair lies on the board. -/
abbrev inB (size : Nat) (p : Int × Int) : Prop :=
  0 ≤ p.1 ∧ p.1 < (size : Int) ∧ 0 ≤ p.2 ∧ p.2 < (size : Int)

/-- Reading a cell at integer coordinates (used only at in-bounds pairs). -/
def cellAtI (b : Board) (p : Int × Int) : Cell :=
  b p.1.toNat p.2.toNat

/-- The spec's notion of a closing direction: a gap-free run of `n ≥ 1`
opposing-color cells starting immediately adjacent to the candidate cell,
terminated — before leaving the board — by a cell of the mover's color. -/
def DirClosure (size : Nat) (b : Board) (color : Color)
    (coords : Coordinate) (d : Dir) (n : Nat) : Prop :=
  1 ≤ n ∧
  (∀ k, 1 ≤ k → k ≤ n →
    inB size (posAt coords d k) ∧ cellAtI b (posAt coords d k) = some color.op) ∧
  inB size (posAt coords d (n + 1)) ∧
  cellAtI b (posAt coords d (n + 1)) = some color

/-- The cells of a closure, start and end inclusive, as the `[col, row]`
pairs `start + k·Δ` for `k = 0 .. flipCount + 1` (these are exactly the
cells `flipPieces` writes). -/
def closureCells (cl : Closure) : List (Int × Int) :=
  (List.range (cl.flipCount + 2)).map fun (k : Nat) =>
    (cl.start.1 + (k : Int) * (delta cl.direction).2,
     cl.start.2 + (k : Int) * (delta cl.direction).1)

/-- Number of occupied cells on the board. -/
def countOcc (size : Nat) (b : Board) : Nat :=
  ((Finset.range size ×ˢ Finset.range size).filter
    (fun p => (b p.1 p.2).isSome)).card

/-- The scan-loop body in direction-uniform form: guard the stepped cell
on both axes, read it, step.  Proved equal to `scanStep` whenever the loop
condition holds. -/
def uStep (size : Nat) (b : Board) (color : Color) (d : Dir)
    (val : JVal) (checkRow checkCol : Int) (flipCount : Nat) :
    JVal × Int × Int × Nat :=
  let r' := checkRow + (delta d).1
  let c' := checkCol + (delta d).2
  if 0 ≤ r' ∧ r' < (size : Int) ∧ 0 ≤ c' ∧ c' < (size : Int) then
    let v := cellVal (b r'.toNat c'.toNat)
    (v, r', c',
      if v ≠ JVal.vcolor color ∧ v ≠ JVal.vnull then flipCount + 1 else flipCount)
  else (val, r', c', flipCount)

/-- For one moving axis of direction `d`, the number of cursor steps until
that axis leaves the board: an upper bound on the remaining scan-loop
iterations. -/
def exitSteps (size : Nat) (d : Dir) (r c : Int) : Nat :=
  match d with
  | .left => (c + 1).toNat
  | .leftUp => (c + 1).toNat
  | .up => (r + 1).toNat
  | .rightUp => (r + 1).toNat
  | .right => ((size : Int) - c).toNat
  | .rightDown => ((size : Int) - c).toNat
  | .down => ((size : Int) - r).toNat
  | .leftDown => (c + 1).toNat

/-! ### Concrete instances used by the witnesses -/

/-- The standard 8×8 initial position (§3 of the spec / `play` setup). -/
def b8 : Board := fun r c =>
  if r = 3 ∧ c = 3 then some .black
  else if r = 3 ∧ c = 4 then some .white
  else if r = 4 ∧ c = 3 then some .white
  else if r = 4 ∧ c = 4 then some .black
  else none

/-- A 3×3 position: white on (0,1), black on (0,2).  Black playing (0,0)
flips (0,1) and leaves neither player a move. -/
def b3 : Board := fun r c =>
  if r = 0 ∧ c = 1 then some .white
  else if r = 0 ∧ c = 2 then some .black
  else none

/-- The game state holding `b3` with black to move. -/
def g3 : GameState := ⟨b3, getScores 3 b3, .black⟩

/-- A 4×4 position where black's legal moves have unequal capture totals:
(1,0) captures 2, while (0,0), (0,2) and (2,0) capture 1 each. -/
def b5 : Board := fun r c =>
  if r = 1 ∧ c = 1 then some .white
  else if r = 1 ∧ c = 2 then some .white
  else if r = 1 ∧ c = 3 then some .black
  else if r = 2 ∧ c = 1 then some .white
  else if r = 2 ∧ c = 2 then some .black
  else none

/-- A 1×1 board whose only cell is occupied (for the rejected-move
witness). -/
def b1 : Board := fun r c =>
  if r = 0 ∧ c = 0 then some .black else none

/-- The game state holding `b1` with white to move. -/
def g1 : GameState := ⟨b1, getScores 1 b1, .white⟩

end Othello

/-! ## Proofs -/

namespace Othello

lemma op_ne (c : Color) : c.op ≠ c := by
  cases c <;> simp [Color.op]

lemma ne_iff_eq_op {a color : Color} : a ≠ color ↔ a = color.op := by
  cases a <;> cases color <;> simp [Color.op]

lemma posAt_zero (coords : Coordinate) (d : Dir) :
    posAt coords d 0 = ((coords.row : Int), (coords.col : Int)) := by
  simp [posAt]

lemma posAt_succ (coords : Coordinate) (d : Dir) (k : Nat) :
    posAt coords d (k + 1) =
      ((posAt coords d k).1 + (delta d).1, (posAt coords d k).2 + (delta d).2) := by
  unfold posAt
  refine Prod.ext ?_ ?_ <;> dsimp only <;> push_cast <;> ring

lemma scanStep_eq_uStep (size : Nat) (b : Board) (color : Color) (d : Dir)
    (val : JVal) (r c : Int) (f : Nat)
    (h0 : 0 ≤ r) (h1 : r < (size : Int)) (h2 : 0 ≤ c) (h3 : c < (size : Int)) :
    scanStep size b color d val r c f = uStep size b color d val r c f := by
  cases d <;>
    simp only [scanStep, uStep, delta, add_zero, sub_eq_add_neg] <;>
    exact if_congr (by omega) rfl rfl

lemma uStep_cursor (size : Nat) (b : Board) (color : Color) (d : Dir)
    (val : JVal) (r c : Int) (f : Nat) :
    (uStep size b color d val r c f).2.1 = r + (delta d).1 ∧
    (uStep size b color d val r c f).2.2.1 = c + (delta d).2 := by
  unfold uStep
  dsimp only
  split <;> exact ⟨rfl, rfl⟩

lemma exitSteps_pos (size : Nat) (d : Dir) (r c : Int)
    (h0 : 0 ≤ c) (h1 : 0 ≤ r) (h2 : c < (size : Int)) (h3 : r < (size : Int)) :
    1 ≤ exitSteps size d r c := by
  cases d <;> simp only [exitSteps] <;> omega

lemma exitSteps_step (size : Nat) (d : Dir) (r c : Int)
    (h0 : 0 ≤ c) (h1 : 0 ≤ r) :
    exitSteps size d (r + (delta d).1) (c + (delta d).2) =
      exitSteps size d r c - 1 := by
  cases d <;> simp only [exitSteps, delta] <;> omega

lemma closureLoop_total (size : Nat) (b : Board) (color : Color) (d : Dir) :
    ∀ (fuel : Nat) (val : JVal) (r c : Int) (f : Nat),
      exitSteps size d r c ≤ fuel →
      ∃ out, closureLoop size b color d fuel val r c f = some out := by
  intro fuel
  induction fuel with
  | zero =>
    intro val r c f h
    by_cases hc : loopCond size color val r c
    · exfalso
      obtain ⟨-, -, hc1, hc2, hc3, hc4⟩ := hc
      have := exitSteps_pos size d r c hc1 hc2 hc3 hc4
      omega
    · exact ⟨_, by rw [closureLoop, if_neg hc]⟩
  | succ fuel ih =>
    intro val r c f h
    by_cases hc : loopCond size color val r c
    · have hc' := hc
      obtain ⟨-, -, hc1, hc2, hc3, hc4⟩ := hc'
      rw [closureLoop, if_pos hc]
      have hstep := scanStep_eq_uStep size b color d val r c f hc2 hc4 hc1 hc3
      have hcur := uStep_cursor size b color d val r c f
      rw [hstep]
      apply ih
      rw [hcur.1, hcur.2, exitSteps_step size d r c hc1 hc2]
      have := exitSteps_pos size d r c hc1 hc2 hc3 hc4
      omega
    · exact ⟨_, by rw [closureLoop, if_neg hc]⟩

/-- C10: `checkForClosure`'s scan loop terminates for every board, every
in-bounds starting coordinate, every color and every direction: each
iteration steps the cursor one cell further along the direction, so the
condition fails after at most `size` iterations — here, the loop run with
exactly `size` fuel (one unit per executed body) always reaches a normal
exit (`some`), never fuel exhaustion. -/
theorem checkForClosure_terminates (size : Nat) (b : Board) (color : Color)
    (coords : Coordinate) (d : Dir)
    (hrow : coords.row < size) (hcol : coords.col < size) :
    ∃ out, closureLoop size b color d size JVal.vzero
      (coords.row : Int) (coords.col : Int) 0 = some out := by
  apply closureLoop_total
  cases d <;> simp only [exitSteps] <;> omega

theorem checkForClosure_terminates_witness :
    (2 < 8 ∧ 4 < 8) ∧
      ∃ out, closureLoop 8 b8 Color.black Dir.down 8 JVal.vzero 2 4 0 = some out :=
  ⟨by decide, checkForClosure_terminates 8 b8 Color.black ⟨2, 4⟩ Dir.down
    (by decide) (by decide)⟩

lemma closureLoop_exit (size : Nat) (b : Board) (color : Color) (d : Dir)
    (fuel : Nat) (val : JVal) (r c : Int) (f : Nat)
    (hc : ¬ loopCond size color val r c) :
    closureLoop size b color d fuel val r c f = some (val, r, c, f) := by
  cases fuel <;> rw [closureLoop, if_neg hc]

lemma loop_fwd (size : Nat) (b : Board) (color : Color) (d : Dir)
    (coords : Coordinate) :
    ∀ (fuel k : Nat) (val : JVal) (f : Nat) (out : JVal × Int × Int × Nat),
      inB size (posAt coords d k) →
      val ≠ JVal.vnull → val ≠ JVal.vcolor color →
      closureLoop size b color d fuel val (posAt coords d k).1 (posAt coords d k).2 f
        = some out →
      out.1 = JVal.vcolor color →
      ∃ n, k ≤ n ∧
        (∀ j, k < j → j ≤ n →
          inB size (posAt coords d j) ∧ cellAtI b (posAt coords d j) = some color.op) ∧
        inB size (posAt coords d (n + 1)) ∧
        cellAtI b (posAt coords d (n + 1)) = some color ∧
        out = (JVal.vcolor color, (posAt coords d (n + 1)).1,
               (posAt coords d (n + 1)).2, f + (n - k)) := by
  intro fuel
  induction fuel with
  | zero =>
    intro k val f out hB hv1 hv2 hcl hout
    exfalso
    rw [closureLoop, if_pos ⟨hv1, hv2, hB.2.2.1, hB.1, hB.2.2.2, hB.2.1⟩] at hcl
    exact Option.noConfusion hcl
  | succ fuel ih =>
    intro k val f out hB hv1 hv2 hcl hout
    have hp1 : (posAt coords d k).1 + (delta d).1 = (posAt coords d (k + 1)).1 := by
      rw [posAt_succ]
    have hp2 : (posAt coords d k).2 + (delta d).2 = (posAt coords d (k + 1)).2 := by
      rw [posAt_succ]
    rw [closureLoop, if_pos ⟨hv1, hv2, hB.2.2.1, hB.1, hB.2.2.2, hB.2.1⟩] at hcl
    rw [scanStep_eq_uStep size b color d val _ _ f hB.1 hB.2.1 hB.2.2.1 hB.2.2.2] at hcl
    simp only [uStep] at hcl
    rw [hp1, hp2] at hcl
    by_cases hg : 0 ≤ (posAt coords d (k + 1)).1 ∧
        (posAt coords d (k + 1)).1 < (size : Int) ∧
        0 ≤ (posAt coords d (k + 1)).2 ∧ (posAt coords d (k + 1)).2 < (size : Int)
    · rw [if_pos hg] at hcl
      dsimp only at hcl
      cases hcc : b ((posAt coords d (k + 1)).1).toNat ((posAt coords d (k + 1)).2).toNat with
      | none =>
        rw [hcc] at hcl
        simp only [cellVal] at hcl
        rw [if_neg (fun h => h.2 rfl)] at hcl
        rw [closureLoop_exit size b color d fuel _ _ _ _ (fun hc => hc.1 rfl)] at hcl
        exfalso
        have := Option.some.inj hcl
        rw [← this] at hout
        exact JVal.noConfusion hout
      | some ccc =>
        rw [hcc] at hcl
        simp only [cellVal] at hcl
        by_cases hccc : ccc = color
        · rw [hccc] at hcl hcc
          rw [if_neg (fun h => h.1 rfl)] at hcl
          rw [closureLoop_exit size b color d fuel _ _ _ _ (fun hc => hc.2.1 rfl)] at hcl
          have hoe := Option.some.inj hcl
          refine ⟨k, le_refl k, ?_, hg, ?_, ?_⟩
          · intro j hj1 hj2
            omega
          · simp only [cellAtI]
            exact hcc
          · rw [← hoe, Nat.sub_self]
            simp
        · rw [if_pos ⟨fun h => hccc (JVal.vcolor.inj h), fun h => JVal.noConfusion h⟩] at hcl
          obtain ⟨n, hkn, hrun, hB1, hB2, houteq⟩ :=
            ih (k + 1) (JVal.vcolor ccc) (f + 1) out hg
              (fun h => JVal.noConfusion h)
              (fun h => hccc (JVal.vcolor.inj h)) hcl hout
          refine ⟨n, by omega, ?_, hB1, hB2, ?_⟩
          · intro j hj1 hj2
            by_cases hjk : j = k + 1
            · subst hjk
              refine ⟨hg, ?_⟩
              simp only [cellAtI]
              rw [hcc, ne_iff_eq_op.mp hccc]
            · exact hrun j (by omega) hj2
          · rw [show f + (n - k) = (f + 1) + (n - (k + 1)) from by omega]
            exact houteq
    · rw [if_neg hg] at hcl
      dsimp only at hcl
      rw [closureLoop_exit size b color d fuel _ _ _ _
        (fun hc => hg ⟨hc.2.2.2.1, hc.2.2.2.2.2, hc.2.2.1, hc.2.2.2.2.1⟩)] at hcl
      exfalso
      have := Option.some.inj hcl
      rw [← this] at hout
      exact hv2 hout

lemma loop_bwd (size : Nat) (b : Board) (color : Color) (d : Dir)
    (coords : Coordinate) :
    ∀ (fuel n k : Nat) (val : JVal) (f : Nat),
      k ≤ n →
      inB size (posAt coords d k) →
      val ≠ JVal.vnull → val ≠ JVal.vcolor color →
      (∀ j, k < j → j ≤ n →
        inB size (posAt coords d j) ∧ cellAtI b (posAt coords d j) = some color.op) →
      inB size (posAt coords d (n + 1)) →
      cellAtI b (posAt coords d (n + 1)) = some color →
      n + 1 - k ≤ fuel →
      closureLoop size b color d fuel val (posAt coords d k).1 (posAt coords d k).2 f =
        some (JVal.vcolor color, (posAt coords d (n + 1)).1,
              (posAt coords d (n + 1)).2, f + (n - k)) := by
  intro fuel
  induction fuel with
  | zero =>
    intro n k val f hkn hB hv1 hv2 hrun hB1 hB2 hfuel
    omega
  | succ fuel ih =>
    intro n k val f hkn hB hv1 hv2 hrun hB1 hB2 hfuel
    have hp1 : (posAt coords d k).1 + (delta d).1 = (posAt coords d (k + 1)).1 := by
      rw [posAt_succ]
    have hp2 : (posAt coords d k).2 + (delta d).2 = (posAt coords d (k + 1)).2 := by
      rw [posAt_succ]
    rw [closureLoop, if_pos ⟨hv1, hv2, hB.2.2.1, hB.1, hB.2.2.2, hB.2.1⟩]
    rw [scanStep_eq_uStep size b color d val _ _ f hB.1 hB.2.1 hB.2.2.1 hB.2.2.2]
    simp only [uStep]
    rw [hp1, hp2]
    by_cases hke : k = n
    · subst hke
      rw [if_pos ⟨hB1.1, hB1.2.1, hB1.2.2.1, hB1.2.2.2⟩]
      dsimp only
      rw [show b ((posAt coords d (k + 1)).1).toNat ((posAt coords d (k + 1)).2).toNat
            = some color from hB2]
      simp only [cellVal]
      rw [if_neg (fun h => h.1 rfl)]
      rw [closureLoop_exit size b color d fuel _ _ _ _ (fun hc => hc.2.1 rfl)]
      rw [Nat.sub_self]
      simp
    · have hkn' : k + 1 ≤ n := by omega
      have hj := hrun (k + 1) (by omega) hkn'
      rw [if_pos ⟨hj.1.1, hj.1.2.1, hj.1.2.2.1, hj.1.2.2.2⟩]
      dsimp only
      rw [show b ((posAt coords d (k + 1)).1).toNat ((posAt coords d (k + 1)).2).toNat
            = some color.op from hj.2]
      simp only [cellVal]
      rw [if_pos ⟨fun h => op_ne color (JVal.vcolor.inj h), fun h => JVal.noConfusion h⟩]
      have := ih n (k + 1) (JVal.vcolor color.op) (f + 1) hkn' hj.1
        (fun h => JVal.noConfusion h)
        (fun h => op_ne color (JVal.vcolor.inj h))
        (fun j h1 h2 => hrun j (by omega) h2) hB1 hB2 (by omega)
      rw [this]
      rw [show (f + 1) + (n - (k + 1)) = f + (n - k) from by omega]

lemma inB_start (size : Nat) (coords : Coordinate) (d : Dir)
    (hrow : coords.row < size) (hcol : coords.col < size) :
    inB size (posAt coords d 0) := by
  refine ⟨?_, ?_, ?_, ?_⟩ <;> rw [posAt_zero] <;> dsimp only <;> omega

lemma dirSteps_lt_size (size : Nat) (coords : Coordinate) (d : Dir) (m : Nat)
    (hrow : coords.row < size) (hcol : coords.col < size)
    (h : inB size (posAt coords d m)) : m < size := by
  obtain ⟨a1, a2, a3, a4⟩ := h
  cases d <;>
    simp only [posAt, delta, mul_zero, mul_one, mul_neg_one, add_zero] at a1 a2 a3 a4 <;>
    omega

lemma checkForClosure_some_char (size : Nat) (b : Board) (color : Color)
    (coords : Coordinate) (d : Dir) (cl : Closure)
    (hrow : coords.row < size) (hcol : coords.col < size)
    (h : checkForClosure size b color coords d = some cl) :
    ∃ n, DirClosure size b color coords d n ∧
      cl = ⟨d, ((coords.col : Int), (coords.row : Int)),
            ((posAt coords d (n + 1)).2, (posAt coords d (n + 1)).1), n⟩ := by
  unfold checkForClosure at h
  cases hloop : closureLoop size b color d size JVal.vzero
      (coords.row : Int) (coords.col : Int) 0 with
  | none => rw [hloop] at h; exact Option.noConfusion h
  | some out =>
    obtain ⟨val, checkRow, checkCol, flipCount⟩ := out
    rw [hloop] at h
    dsimp only at h
    by_cases hc : val = JVal.vcolor color ∧ 0 < flipCount
    · rw [if_pos hc] at h
      have hloop' : closureLoop size b color d size JVal.vzero
          (posAt coords d 0).1 (posAt coords d 0).2 0 =
            some (val, checkRow, checkCol, flipCount) := by
        rw [posAt_zero]
        exact hloop
      obtain ⟨n, -, hrun, hB1, hB2, houteq⟩ :=
        loop_fwd size b color d coords size 0 JVal.vzero 0
          (val, checkRow, checkCol, flipCount)
          (inB_start size coords d hrow hcol)
          (fun hh => JVal.noConfusion hh) (fun hh => JVal.noConfusion hh)
          hloop' hc.1
      simp only [Prod.mk.injEq] at houteq
      obtain ⟨he1, he2, he3, he4⟩ := houteq
      refine ⟨n, ⟨by omega, fun k h1 h2 => hrun k h1 h2, hB1, hB2⟩, ?_⟩
      rw [← Option.some.inj h]
      subst he2
      subst he3
      have h5 : flipCount = n := by omega
      subst h5
      rfl
    · rw [if_neg hc] at h
      exact Option.noConfusion h

lemma checkForClosure_of_dirClosure (size : Nat) (b : Board) (color : Color)
    (coords : Coordinate) (d : Dir) (n : Nat)
    (hrow : coords.row < size) (hcol : coords.col < size)
    (hd : DirClosure size b color coords d n) :
    checkForClosure size b color coords d =
      some ⟨d, ((coords.col : Int), (coords.row : Int)),
        ((posAt coords d (n + 1)).2, (posAt coords d (n + 1)).1), n⟩ := by
  obtain ⟨hn, hrun, hB1, hB2⟩ := hd
  have hfuel : n + 1 - 0 ≤ size :=
    le_of_lt (dirSteps_lt_size size coords d (n + 1) hrow hcol hB1)
  have hloop := loop_bwd size b color d coords size n 0 JVal.vzero 0
    (Nat.zero_le n) (inB_start size coords d hrow hcol)
    (fun hh => JVal.noConfusion hh) (fun hh => JVal.noConfusion hh)
    (fun j h1 h2 => hrun j h1 h2) hB1 hB2 hfuel
  rw [posAt_zero] at hloop
  unfold checkForClosure
  rw [hloop]
  dsimp only
  rw [if_pos ⟨rfl, by omega⟩]
  simp only [Nat.sub_zero, Nat.zero_add]

lemma mem_allDirs (d : Dir) : d ∈ allDirs := by
  cases d <;> simp [allDirs]

lemma getClosures_eq_nil_iff (size : Nat) (b : Board) (color : Color)
    (coords : Coordinate) :
    getClosures size b color coords = [] ↔
      ∀ d, checkForClosure size b color coords d = none := by
  unfold getClosures
  rw [List.filterMap_eq_nil_iff]
  constructor
  · intro h d
    exact h d (mem_allDirs d)
  · intro h d _
    exact h d

/-- C1: for every board, color and in-bounds coordinate, `validateMove`
returns a (non-empty) set of closures iff the target cell is empty and at
least one direction holds a gap-free run of one or more opposing-color
cells starting immediately adjacent and terminated by a mover-colored cell
before leaving the board; otherwise it reports the move invalid
(`isSome = false` models the source's `false`). -/
theorem validateMove_legal_iff (size : Nat) (b : Board) (coords : Coordinate)
    (color : Color) (hrow : coords.row < size) (hcol : coords.col < size) :
    (validateMove size b coords color).isSome = true ↔
      (b coords.row coords.col = none ∧
        ∃ d n, DirClosure size b color coords d n) := by
  unfold validateMove
  by_cases hocc : b coords.row coords.col = none
  · rw [if_neg (fun hh => hh hocc)]
    by_cases hnil : getClosures size b color coords = []
    · rw [if_pos hnil]
      simp only [Option.isSome_none, Bool.false_eq_true, false_iff, not_and]
      rintro - ⟨d, n, hdc⟩
      have hsome := checkForClosure_of_dirClosure size b color coords d n hrow hcol hdc
      have hnone := (getClosures_eq_nil_iff size b color coords).mp hnil d
      rw [hsome] at hnone
      exact Option.noConfusion hnone
    · rw [if_neg hnil]
      simp only [Option.isSome_some, true_iff]
      refine ⟨hocc, ?_⟩
      have : ∃ d, checkForClosure size b color coords d ≠ none := by
        by_contra hall
        push_neg at hall
        exact hnil ((getClosures_eq_nil_iff size b color coords).mpr
          (fun d => hall d))
      obtain ⟨d, hd⟩ := this
      obtain ⟨cl, hcl⟩ := Option.ne_none_iff_exists'.mp hd
      obtain ⟨n, hn, -⟩ :=
        checkForClosure_some_char size b color coords d cl hrow hcol hcl
      exact ⟨d, n, hn⟩
  · rw [if_pos hocc]
    simp only [Option.isSome_none, Bool.false_eq_true, false_iff, not_and]
    intro h
    exact absurd h hocc

theorem validateMove_legal_iff_witness :
    ((⟨2, 4⟩ : Coordinate).row < 8 ∧ (⟨2, 4⟩ : Coordinate).col < 8) ∧
      ((validateMove 8 b8 ⟨2, 4⟩ Color.black).isSome = true ↔
        (b8 2 4 = none ∧ ∃ d n, DirClosure 8 b8 Color.black ⟨2, 4⟩ d n)) :=
  ⟨by decide, validateMove_legal_iff 8 b8 ⟨2, 4⟩ Color.black (by decide) (by decide)⟩

lemma foldl_setCellI (v : Cell) (f g : Nat → Int) :
    ∀ (L : List Nat) (b : Board) (r c : Nat),
      (L.foldl (fun bd k => setCellI bd (f k) (g k) v) b) r c =
        if ∃ k ∈ L, (r : Int) = f k ∧ (c : Int) = g k then v else b r c := by
  intro L
  induction L with
  | nil =>
    intro b r c
    simp
  | cons k0 t ih =>
    intro b r c
    rw [List.foldl_cons, ih]
    by_cases ht : ∃ k ∈ t, (r : Int) = f k ∧ (c : Int) = g k
    · rw [if_pos ht, if_pos ?_]
      obtain ⟨k, hk1, hk2⟩ := ht
      exact ⟨k, List.mem_cons_of_mem k0 hk1, hk2⟩
    · rw [if_neg ht]
      by_cases hk0 : (r : Int) = f k0 ∧ (c : Int) = g k0
      · rw [if_pos ?_]
        · unfold setCellI
          rw [if_pos hk0]
        · exact ⟨k0, List.mem_cons_self k0 t, hk0⟩
      · rw [if_neg ?_]
        · unfold setCellI
          rw [if_neg hk0]
        · rintro ⟨k, hk1, hk2⟩
          rcases List.mem_cons.mp hk1 with h | h
          · exact hk0 (h ▸ hk2)
          · exact ht ⟨k, h, hk2⟩

lemma flipPieces_char (b : Board) (st en : Int × Int) (d : Dir) (color : Color)
    (m : Nat)
    (hend : en = (st.1 + (m : Int) * (delta d).2, st.2 + (m : Int) * (delta d).1)) :
    ∀ r c : Nat,
      flipPieces b st en d color r c =
        if ∃ k, k ≤ m ∧ (c : Int) = st.1 + (k : Int) * (delta d).2 ∧
            (r : Int) = st.2 + (k : Int) * (delta d).1
        then some color else b r c := by
  subst hend
  cases d
  case left =>
    intro r c
    simp only [flipPieces, delta]
    rw [if_pos (by omega)]
    rw [foldl_setCellI (some color) (fun _ => st.2) (fun k => st.1 - (k : Int))]
    refine if_congr ?_ rfl rfl
    constructor
    · rintro ⟨k, hk, h1, h2⟩
      rw [List.mem_range] at hk
      exact ⟨k, by omega, by omega, by omega⟩
    · rintro ⟨k, hk, h1, h2⟩
      exact ⟨k, List.mem_range.mpr (by omega), by omega, by omega⟩
  case leftUp =>
    intro r c
    simp only [flipPieces, delta]
    rw [if_pos (by constructor <;> omega)]
    rw [foldl_setCellI (some color) (fun k => st.2 - (k : Int)) (fun k => st.1 - (k : Int))]
    refine if_congr ?_ rfl rfl
    constructor
    · rintro ⟨k, hk, h1, h2⟩
      rw [List.mem_range] at hk
      exact ⟨k, by omega, by omega, by omega⟩
    · rintro ⟨k, hk, h1, h2⟩
      exact ⟨k, List.mem_range.mpr (by omega), by omega, by omega⟩
  case up =>
    intro r c
    simp only [flipPieces, delta]
    rw [if_pos (by omega)]
    rw [foldl_setCellI (some color) (fun k => st.2 - (k : Int)) (fun _ => st.1)]
    refine if_congr ?_ rfl rfl
    constructor
    · rintro ⟨k, hk, h1, h2⟩
      rw [List.mem_range] at hk
      exact ⟨k, by omega, by omega, by omega⟩
    · rintro ⟨k, hk, h1, h2⟩
      exact ⟨k, List.mem_range.mpr (by omega), by omega, by omega⟩
  case rightUp =>
    intro r c
    simp only [flipPieces, delta]
    rw [if_pos (by constructor <;> omega)]
    rw [foldl_setCellI (some color) (fun k => st.2 - (k : Int)) (fun k => st.1 + (k : Int))]
    refine if_congr ?_ rfl rfl
    constructor
    · rintro ⟨k, hk, h1, h2⟩
      rw [List.mem_range] at hk
      exact ⟨k, by omega, by omega, by omega⟩
    · rintro ⟨k, hk, h1, h2⟩
      exact ⟨k, List.mem_range.mpr (by omega), by omega, by omega⟩
  case right =>
    intro r c
    simp only [flipPieces, delta]
    rw [if_pos (by omega)]
    rw [foldl_setCellI (some color) (fun _ => st.2) (fun k => st.1 + (k : Int))]
    refine if_congr ?_ rfl rfl
    constructor
    · rintro ⟨k, hk, h1, h2⟩
      rw [List.mem_range] at hk
      exact ⟨k, by omega, by omega, by omega⟩
    · rintro ⟨k, hk, h1, h2⟩
      exact ⟨k, List.mem_range.mpr (by omega), by omega, by omega⟩
  case rightDown =>
    intro r c
    simp only [flipPieces, delta]
    rw [if_pos (by constructor <;> omega)]
    rw [foldl_setCellI (some color) (fun k => st.2 + (k : Int)) (fun k => st.1 + (k : Int))]
    refine if_congr ?_ rfl rfl
    constructor
    · rintro ⟨k, hk, h1, h2⟩
      rw [List.mem_range] at hk
      exact ⟨k, by omega, by omega, by omega⟩
    · rintro ⟨k, hk, h1, h2⟩
      exact ⟨k, List.mem_range.mpr (by omega), by omega, by omega⟩
  case down =>
    intro r c
    simp only [flipPieces, delta]
    rw [if_pos (by omega)]
    rw [foldl_setCellI (some color) (fun k => st.2 + (k : Int)) (fun _ => st.1)]
    refine if_congr ?_ rfl rfl
    constructor
    · rintro ⟨k, hk, h1, h2⟩
      rw [List.mem_range] at hk
      exact ⟨k, by omega, by omega, by omega⟩
    · rintro ⟨k, hk, h1, h2⟩
      exact ⟨k, List.mem_range.mpr (by omega), by omega, by omega⟩
  case leftDown =>
    intro r c
    simp only [flipPieces, delta]
    rw [if_pos (by constructor <;> omega)]
    rw [foldl_setCellI (some color) (fun k => st.2 + (k : Int)) (fun k => st.1 - (k : Int))]
    refine if_congr ?_ rfl rfl
    constructor
    · rintro ⟨k, hk, h1, h2⟩
      rw [List.mem_range] at hk
      exact ⟨k, by omega, by omega, by omega⟩
    · rintro ⟨k, hk, h1, h2⟩
      exact ⟨k, List.mem_range.mpr (by omega), by omega, by omega⟩

lemma mem_closureCells (cl : Closure) (p : Int × Int) :
    p ∈ closureCells cl ↔
      ∃ k, k ≤ cl.flipCount + 1 ∧
        p.1 = cl.start.1 + (k : Int) * (delta cl.direction).2 ∧
        p.2 = cl.start.2 + (k : Int) * (delta cl.direction).1 := by
  obtain ⟨p1, p2⟩ := p
  unfold closureCells
  rw [List.mem_map]
  constructor
  · rintro ⟨k, hk, heq⟩
    rw [List.mem_range] at hk
    obtain ⟨h1, h2⟩ := Prod.mk.injEq .. ▸ heq
    exact ⟨k, by omega, h1.symm, h2.symm⟩
  · rintro ⟨k, hk, h1, h2⟩
    refine ⟨k, List.mem_range.mpr (by omega), ?_⟩
    dsimp only at h1 h2
    rw [h1, h2]
  
lemma checkForClosure_oob (size : Nat) (b : Board) (color : Color)
    (coords : Coordinate) (d : Dir)
    (h : ¬ (coords.row < size ∧ coords.col < size)) :
    checkForClosure size b color coords d = none := by
  have hnc : ¬ loopCond size color JVal.vzero (coords.row : Int) (coords.col : Int) := by
    intro hc
    obtain ⟨-, -, -, -, hc5, hc6⟩ := hc
    exact h ⟨by exact_mod_cast hc6, by exact_mod_cast hc5⟩
  unfold checkForClosure
  rw [closureLoop_exit size b color d size JVal.vzero _ _ 0 hnc]
  dsimp only
  rw [if_neg (fun hh => JVal.noConfusion hh.1)]

lemma validateMove_some_char (size : Nat) (b : Board) (coords : Coordinate)
    (color : Color) (cls : List Closure)
    (hv : validateMove size b coords color = some cls) :
    b coords.row coords.col = none ∧ cls ≠ [] ∧
      coords.row < size ∧ coords.col < size ∧
      ∀ cl ∈ cls, ∃ n, DirClosure size b color coords cl.direction n ∧
        cl = ⟨cl.direction, ((coords.col : Int), (coords.row : Int)),
              ((posAt coords cl.direction (n + 1)).2,
               (posAt coords cl.direction (n + 1)).1), n⟩ := by
  unfold validateMove at hv
  by_cases hocc : b coords.row coords.col = none
  · rw [if_neg (fun hh => hh hocc)] at hv
    by_cases hnil : getClosures size b color coords = []
    · rw [if_pos hnil] at hv
      exact Option.noConfusion hv
    · rw [if_neg hnil] at hv
      have hcls : cls = getClosures size b color coords := (Option.some.inj hv).symm
      have hbound : coords.row < size ∧ coords.col < size := by
        by_contra hnb
        refine hnil ((getClosures_eq_nil_iff size b color coords).mpr ?_)
        exact fun d => checkForClosure_oob size b color coords d hnb
      refine ⟨hocc, by rw [hcls]; exact hnil, hbound.1, hbound.2, ?_⟩
      intro cl hcl
      rw [hcls] at hcl
      unfold getClosures at hcl
      obtain ⟨d, -, hd⟩ := List.mem_filterMap.mp hcl
      obtain ⟨n, hn, hrec⟩ :=
        checkForClosure_some_char size b color coords d cl hbound.1 hbound.2 hd
      have hdir : cl.direction = d := by rw [hrec]
      rw [← hdir] at hn hrec
      exact ⟨n, hn, hrec⟩
  · rw [if_pos hocc] at hv
    exact Option.noConfusion hv

lemma closure_shape (size : Nat) (b : Board) (coords : Coordinate)
    (color : Color) (cls : List Closure)
    (hv : validateMove size b coords color = some cls) :
    ∀ cl ∈ cls,
      cl.endp = (cl.start.1 + ((cl.flipCount + 1 : Nat) : Int) * (delta cl.direction).2,
                 cl.start.2 + ((cl.flipCount + 1 : Nat) : Int) * (delta cl.direction).1) := by
  intro cl hcl
  obtain ⟨-, -, -, -, hall⟩ := validateMove_some_char size b coords color cls hv
  obtain ⟨n, -, hrec⟩ := hall cl hcl
  rw [hrec]
  dsimp only
  unfold posAt
  dsimp only

lemma foldFlips_char (color : Color) :
    ∀ (cls : List Closure) (b0 : Board),
      (∀ cl ∈ cls,
        cl.endp = (cl.start.1 + ((cl.flipCount + 1 : Nat) : Int) * (delta cl.direction).2,
                   cl.start.2 + ((cl.flipCount + 1 : Nat) : Int) * (delta cl.direction).1)) →
      ∀ r c : Nat,
        (cls.foldl (fun bd cl => flipPieces bd cl.start cl.endp cl.direction color) b0) r c =
          if ∃ cl ∈ cls, ((c : Int), (r : Int)) ∈ closureCells cl then some color
          else b0 r c := by
  intro cls
  induction cls with
  | nil =>
    intro b0 hshape r c
    simp
  | cons cl t ih =>
    intro b0 hshape r c
    rw [List.foldl_cons]
    rw [ih _ (fun x hx => hshape x (List.mem_cons_of_mem cl hx))]
    by_cases hmem : ∃ x ∈ t, ((c : Int), (r : Int)) ∈ closureCells x
    · rw [if_pos hmem, if_pos ?_]
      obtain ⟨x, hx1, hx2⟩ := hmem
      exact ⟨x, List.mem_cons_of_mem cl hx1, hx2⟩
    · rw [if_neg hmem]
      rw [flipPieces_char b0 cl.start cl.endp cl.direction color (cl.flipCount + 1)
        (hshape cl (List.mem_cons_self cl t)) r c]
      by_cases hk : ∃ k, k ≤ cl.flipCount + 1 ∧
          (c : Int) = cl.start.1 + (k : Int) * (delta cl.direction).2 ∧
          (r : Int) = cl.start.2 + (k : Int) * (delta cl.direction).1
      · rw [if_pos hk, if_pos ?_]
        refine ⟨cl, List.mem_cons_self cl t, ?_⟩
        rw [mem_closureCells]
        obtain ⟨k, h1, h2, h3⟩ := hk
        exact ⟨k, h1, h2, h3⟩
      · rw [if_neg hk, if_neg ?_]
        rintro ⟨x, hx1, hx2⟩
        rcases List.mem_cons.mp hx1 with h | h
        · subst h
          rw [mem_closureCells] at hx2
          obtain ⟨k, h1, h2, h3⟩ := hx2
          exact hk ⟨k, h1, h2, h3⟩
        · exact hmem ⟨x, h, hx2⟩

lemma applyMove_char (size : Nat) (b : Board) (coords : Coordinate)
    (color : Color) (cls : List Closure)
    (hv : validateMove size b coords color = some cls) :
    ∀ r c : Nat,
      applyMove b coords color cls r c =
        if ∃ cl ∈ cls, ((c : Int), (r : Int)) ∈ closureCells cl then some color
        else if r = coords.row ∧ c = coords.col then some color
        else b r c := by
  intro r c
  unfold applyMove
  rw [foldFlips_char color cls _ (closure_shape size b coords color cls hv) r c]
  by_cases hmem : ∃ cl ∈ cls, ((c : Int), (r : Int)) ∈ closureCells cl
  · rw [if_pos hmem, if_pos hmem]
  · rw [if_neg hmem, if_neg hmem]
    unfold setCell
    rfl

/-- C2: for every accepted move (the piece placed, then every returned
closure flipped by `flipPieces`), each cell lying within one of the move's
closures afterwards holds the mover's color, and every cell outside the
closures other than the placed cell holds exactly what it held before. -/
theorem flip_exactness (size : Nat) (b : Board) (coords : Coordinate)
    (color : Color) (cls : List Closure)
    (hv : validateMove size b coords color = some cls) :
    (∀ r c : Nat, (∃ cl ∈ cls, ((c : Int), (r : Int)) ∈ closureCells cl) →
        applyMove b coords color cls r c = some color) ∧
    (∀ r c : Nat, (¬ ∃ cl ∈ cls, ((c : Int), (r : Int)) ∈ closureCells cl) →
        ¬ (r = coords.row ∧ c = coords.col) →
        applyMove b coords color cls r c = b r c) := by
  constructor
  · intro r c hmem
    rw [applyMove_char size b coords color cls hv r c, if_pos hmem]
  · intro r c hmem hplace
    rw [applyMove_char size b coords color cls hv r c, if_neg hmem, if_neg hplace]

theorem flip_exactness_witness :
    validateMove 8 b8 ⟨2, 4⟩ Color.black =
      some [⟨Dir.down, (4, 2), (4, 4), 1⟩] ∧
    applyMove b8 ⟨2, 4⟩ Color.black [⟨Dir.down, (4, 2), (4, 4), 1⟩] 3 4 =
      some Color.black ∧
    applyMove b8 ⟨2, 4⟩ Color.black [⟨Dir.down, (4, 2), (4, 4), 1⟩] 0 0 = b8 0 0 :=
  ⟨by decide,
   (flip_exactness 8 b8 ⟨2, 4⟩ Color.black [⟨Dir.down, (4, 2), (4, 4), 1⟩]
     (by decide)).1 3 4 (by decide),
   (flip_exactness 8 b8 ⟨2, 4⟩ Color.black [⟨Dir.down, (4, 2), (4, 4), 1⟩]
     (by decide)).2 0 0 (by decide) (by decide)⟩

lemma countOcc_congr (size : Nat) (b b' : Board)
    (h : ∀ r c, r < size → c < size → (b r c).isSome = (b' r c).isSome) :
    countOcc size b = countOcc size b' := by
  unfold countOcc
  congr 1
  apply Finset.filter_congr
  intro p hp
  obtain ⟨hp1, hp2⟩ := Finset.mem_product.mp hp
  rw [h p.1 p.2 (Finset.mem_range.mp hp1) (Finset.mem_range.mp hp2)]

lemma countOcc_setCell (size : Nat) (b : Board) (row col : Nat) (color : Color)
    (hrow : row < size) (hcol : col < size) (hempty : b row col = none) :
    countOcc size (setCell b row col (some color)) = countOcc size b + 1 := by
  unfold countOcc
  have hins : ((Finset.range size ×ˢ Finset.range size).filter
      (fun p => ((setCell b row col (some color)) p.1 p.2).isSome)) =
    insert (row, col) ((Finset.range size ×ˢ Finset.range size).filter
      (fun p => (b p.1 p.2).isSome)) := by
    ext p
    rw [Finset.mem_insert, Finset.mem_filter, Finset.mem_filter]
    constructor
    · rintro ⟨hp, hval⟩
      by_cases hpc : p = (row, col)
      · exact Or.inl hpc
      · refine Or.inr ⟨hp, ?_⟩
        unfold setCell at hval
        rw [if_neg ?_] at hval
        · exact hval
        · rintro ⟨h1, h2⟩
          exact hpc (Prod.ext_iff.mpr ⟨h1, h2⟩)
    · rintro (hpc | ⟨hp, hval⟩)
      · subst hpc
        refine ⟨Finset.mem_product.mpr
          ⟨Finset.mem_range.mpr hrow, Finset.mem_range.mpr hcol⟩, ?_⟩
        unfold setCell
        rw [if_pos ⟨rfl, rfl⟩]
        rfl
      · refine ⟨hp, ?_⟩
        unfold setCell
        by_cases hpc : p.1 = row ∧ p.2 = col
        · rw [if_pos hpc]
          rfl
        · rw [if_neg hpc]
          exact hval
  rw [hins, Finset.card_insert_of_not_mem ?_]
  rw [Finset.mem_filter]
  rintro ⟨-, hval⟩
  rw [hempty] at hval
  exact Bool.noConfusion hval

lemma applyMove_isSome (size : Nat) (b : Board) (coords : Coordinate)
    (color : Color) (cls : List Closure)
    (hv : validateMove size b coords color = some cls) :
    ∀ r c : Nat, (applyMove b coords color cls r c).isSome =
      ((setCell b coords.row coords.col (some color)) r c).isSome := by
  intro r c
  rw [applyMove_char size b coords color cls hv r c]
  by_cases hmem : ∃ cl ∈ cls, ((c : Int), (r : Int)) ∈ closureCells cl
  · rw [if_pos hmem]
    obtain ⟨cl, hcl, hp⟩ := hmem
    obtain ⟨-, -, -, -, hall⟩ := validateMove_some_char size b coords color cls hv
    obtain ⟨n, hdc, hrec⟩ := hall cl hcl
    rw [mem_closureCells] at hp
    obtain ⟨k, hk, hpc, hpr⟩ := hp
    rw [hrec] at hpc hpr hk
    dsimp only at hpc hpr hk
    have hstart1 : (posAt coords cl.direction k).1 =
        (coords.row : Int) + (k : Int) * (delta cl.direction).1 := rfl
    have hstart2 : (posAt coords cl.direction k).2 =
        (coords.col : Int) + (k : Int) * (delta cl.direction).2 := rfl
    unfold setCell
    by_cases hk0 : k = 0
    · subst hk0
      have hr : r = coords.row := by omega
      have hc : c = coords.col := by omega
      rw [if_pos ⟨hr, hc⟩]
    · obtain ⟨hn1, hrun, hB1, hB2⟩ := hdc
      have hcell : cellAtI b (posAt coords cl.direction k) = some color.op ∨
          cellAtI b (posAt coords cl.direction k) = some color := by
        by_cases hkn : k ≤ n
        · exact Or.inl (hrun k (by omega) hkn).2
        · have : k = n + 1 := by omega
          subst this
          exact Or.inr hB2
      have hinb : inB size (posAt coords cl.direction k) := by
        by_cases hkn : k ≤ n
        · exact (hrun k (by omega) hkn).1
        · have : k = n + 1 := by omega
          subst this
          exact hB1
      have hr : r = ((posAt coords cl.direction k).1).toNat := by
        obtain ⟨i1, -, -, -⟩ := hinb
        omega
      have hc : c = ((posAt coords cl.direction k).2).toNat := by
        obtain ⟨-, -, i3, -⟩ := hinb
        omega
      have hbrc : b r c = cellAtI b (posAt coords cl.direction k) := by
        unfold cellAtI
        rw [hr, hc]
      by_cases hplace : r = coords.row ∧ c = coords.col
      · rw [if_pos hplace]
      · rw [if_neg hplace]
        rcases hcell with h | h
        · rw [hbrc, h]
          rfl
        · rw [hbrc, h]
  · rw [if_neg hmem]
    unfold setCell
    dsimp only

/-- C4: every accepted move raises the occupied-cell count by exactly one
(the placed piece); the closure flips only recolor already-occupied cells —
pointwise, the board after placing and flipping has exactly the occupancy
of the board after the placement alone. -/
theorem placement_conservation (size : Nat) (b : Board) (coords : Coordinate)
    (color : Color) (cls : List Closure)
    (hv : validateMove size b coords color = some cls) :
    countOcc size (applyMove b coords color cls) = countOcc size b + 1 ∧
    ∀ r c : Nat, (applyMove b coords color cls r c).isSome =
      ((setCell b coords.row coords.col (some color)) r c).isSome := by
  obtain ⟨hempty, -, hrow, hcol, -⟩ :=
    validateMove_some_char size b coords color cls hv
  refine ⟨?_, applyMove_isSome size b coords color cls hv⟩
  rw [countOcc_congr size _ _
    (fun r c _ _ => applyMove_isSome size b coords color cls hv r c)]
  exact countOcc_setCell size b coords.row coords.col color hrow hcol hempty

theorem placement_conservation_witness :
    validateMove 8 b8 ⟨2, 3⟩ Color.white =
      some [⟨Dir.down, (3, 2), (3, 4), 1⟩] ∧
    countOcc 8 (applyMove b8 ⟨2, 3⟩ Color.white [⟨Dir.down, (3, 2), (3, 4), 1⟩]) =
      countOcc 8 b8 + 1 :=
  ⟨by decide,
   (placement_conservation 8 b8 ⟨2, 3⟩ Color.white [⟨Dir.down, (3, 2), (3, 4), 1⟩]
     (by decide)).1⟩

/-- C8: a rejected move (occupied target, or no direction closes) leaves
the entire game state untouched: the `play` loop prints and `continue`s
before any mutation, so the resulting state is the input state — board,
scores and active color included.  (`validateMove` itself is embedded as a
pure function of the board: the source function only reads
`board.positions`.) -/
theorem rejected_move_unchanged (size : Nat) (g : GameState) (move : Coordinate)
    (hrej : validateMove size g.board move g.curPlayer = none) :
    stepMove size g move = StepOutcome.rejected g ∧
    (stepMove size g move = StepOutcome.rejected g →
      g.board = g.board ∧ g.scores = g.scores ∧ g.curPlayer = g.curPlayer) := by
  constructor
  · unfold stepMove
    rw [hrej]
  · exact fun _ => ⟨rfl, rfl, rfl⟩

theorem rejected_move_unchanged_witness :
    validateMove 1 g1.board ⟨0, 0⟩ g1.curPlayer = none ∧
    stepMove 1 g1 ⟨0, 0⟩ = StepOutcome.rejected g1 :=
  ⟨by decide, (rejected_move_unchanged 1 g1 ⟨0, 0⟩ (by decide)).1⟩

lemma winnerOf_char (sc : Nat × Nat) :
    (winnerOf sc = Winner.tie ↔ sc.1 = sc.2) ∧
    (winnerOf sc = Winner.blackWins ↔ sc.2 < sc.1) ∧
    (winnerOf sc = Winner.whiteWins ↔ sc.1 < sc.2) := by
  obtain ⟨s1, s2⟩ := sc
  unfold winnerOf
  dsimp only
  by_cases h1 : s1 = s2
  · rw [if_pos h1]
    exact ⟨⟨fun _ => h1, fun _ => rfl⟩,
           ⟨fun h => Winner.noConfusion h, fun h => absurd h (by omega)⟩,
           ⟨fun h => Winner.noConfusion h, fun h => absurd h (by omega)⟩⟩
  · by_cases h2 : s2 < s1
    · rw [if_neg h1, if_pos h2]
      exact ⟨⟨fun h => Winner.noConfusion h, fun h => absurd h h1⟩,
             ⟨fun _ => h2, fun _ => rfl⟩,
             ⟨fun h => Winner.noConfusion h, fun h => absurd h (by omega)⟩⟩
    · rw [if_neg h1, if_neg h2]
      exact ⟨⟨fun h => Winner.noConfusion h, fun h => absurd h h1⟩,
             ⟨fun h => Winner.noConfusion h, fun h => absurd h h2⟩,
             ⟨fun _ => by omega, fun _ => rfl⟩⟩

/-- C3: after every accepted move, if the next color has no legal move on
the whole board the active color reverts to the original mover (a skipped
turn); if the original mover then also has no legal move the game is over,
with the winner the color of strictly higher score, or a tie when the
scores are equal. -/
theorem skip_and_terminal (size : Nat) (g : GameState) (move : Coordinate)
    (cls : List Closure)
    (hv : validateMove size g.board move g.curPlayer = some cls)
    (hnext : playerHasAnyValidMoves size (applyMove g.board move g.curPlayer cls)
      g.curPlayer.op = false) :
    (playerHasAnyValidMoves size (applyMove g.board move g.curPlayer cls)
        g.curPlayer = true →
      stepMove size g move = StepOutcome.accepted
        ⟨applyMove g.board move g.curPlayer cls,
         getScores size (applyMove g.board move g.curPlayer cls), g.curPlayer⟩ true) ∧
    (playerHasAnyValidMoves size (applyMove g.board move g.curPlayer cls)
        g.curPlayer = false →
      stepMove size g move = StepOutcome.finished
        ⟨applyMove g.board move g.curPlayer cls,
         getScores size (applyMove g.board move g.curPlayer cls), g.curPlayer⟩
        (winnerOf (getScores size (applyMove g.board move g.curPlayer cls))) ∧
      (winnerOf (getScores size (applyMove g.board move g.curPlayer cls)) =
          Winner.tie ↔
        (getScores size (applyMove g.board move g.curPlayer cls)).1 =
          (getScores size (applyMove g.board move g.curPlayer cls)).2) ∧
      (winnerOf (getScores size (applyMove g.board move g.curPlayer cls)) =
          Winner.blackWins ↔
        (getScores size (applyMove g.board move g.curPlayer cls)).2 <
          (getScores size (applyMove g.board move g.curPlayer cls)).1) ∧
      (winnerOf (getScores size (applyMove g.board move g.curPlayer cls)) =
          Winner.whiteWins ↔
        (getScores size (applyMove g.board move g.curPlayer cls)).1 <
          (getScores size (applyMove g.board move g.curPlayer cls)).2)) := by
  constructor
  · intro hmover
    unfold stepMove
    rw [hv]
    dsimp only
    rw [if_neg (by rw [hnext]; exact fun hh => Bool.noConfusion hh),
        if_pos (by rw [hmover])]
  · intro hmover
    refine ⟨?_, (winnerOf_char _).1, (winnerOf_char _).2.1, (winnerOf_char _).2.2⟩
    unfold stepMove
    rw [hv]
    dsimp only
    rw [if_neg (by rw [hnext]; exact fun hh => Bool.noConfusion hh),
        if_neg (by rw [hmover]; exact fun hh => Bool.noConfusion hh)]

theorem skip_and_terminal_witness :
    validateMove 3 g3.board ⟨0, 0⟩ g3.curPlayer =
      some [⟨Dir.right, (0, 0), (2, 0), 1⟩] ∧
    playerHasAnyValidMoves 3
      (applyMove g3.board ⟨0, 0⟩ g3.curPlayer [⟨Dir.right, (0, 0), (2, 0), 1⟩])
      g3.curPlayer.op = false ∧
    playerHasAnyValidMoves 3
      (applyMove g3.board ⟨0, 0⟩ g3.curPlayer [⟨Dir.right, (0, 0), (2, 0), 1⟩])
      g3.curPlayer = false ∧
    stepMove 3 g3 ⟨0, 0⟩ = StepOutcome.finished
      ⟨applyMove g3.board ⟨0, 0⟩ g3.curPlayer [⟨Dir.right, (0, 0), (2, 0), 1⟩],
       getScores 3 (applyMove g3.board ⟨0, 0⟩ g3.curPlayer
         [⟨Dir.right, (0, 0), (2, 0), 1⟩]), g3.curPlayer⟩
      (winnerOf (getScores 3 (applyMove g3.board ⟨0, 0⟩ g3.curPlayer
         [⟨Dir.right, (0, 0), (2, 0), 1⟩]))) ∧
    winnerOf (getScores 3 (applyMove g3.board ⟨0, 0⟩ g3.curPlayer
      [⟨Dir.right, (0, 0), (2, 0), 1⟩])) = Winner.blackWins :=
  ⟨by decide, by decide, by decide,
   ((skip_and_terminal 3 g3 ⟨0, 0⟩ [⟨Dir.right, (0, 0), (2, 0), 1⟩]
     (by decide) (by decide)).2 (by decide)).1,
   by decide⟩

lemma foldl_acc_append {α β : Type} (step : List β → α → List β) (g : α → List β)
    (h : ∀ acc x, step acc x = acc ++ g x) :
    ∀ (L : List α) (acc : List β), L.foldl step acc = acc ++ L.flatMap g := by
  intro L
  induction L with
  | nil =>
    intro acc
    simp
  | cons x t ih =>
    intro acc
    rw [List.foldl_cons, h, ih, List.flatMap_cons, List.append_assoc]

lemma getAllValidMoves_eq (size : Nat) (b : Board) (color : Color) :
    getAllValidMoves size b color =
      (List.range size).flatMap (fun row =>
        (List.range size).flatMap (fun col =>
          if (validateMove size b ⟨row, col⟩ color).isSome then
            [(⟨row, col⟩ : Coordinate)]
          else [])) := by
  unfold getAllValidMoves
  rw [foldl_acc_append _ _ ?hout, List.nil_append]
  case hout =>
    intro acc row
    rw [foldl_acc_append _ _ ?hin]
    case hin =>
      intro acc2 col
      by_cases hv : (validateMove size b ⟨row, col⟩ color).isSome
      · rw [if_pos hv, if_pos hv]
      · rw [if_neg hv, if_neg hv, List.append_nil]

/-- C9: the boolean existence check and the full enumeration agree:
`playerHasAnyValidMoves(color)` is true exactly when
`getAllValidMoves(color)` is non-empty. -/
theorem hasAny_iff_getAll_ne_nil (size : Nat) (b : Board) (color : Color) :
    playerHasAnyValidMoves size b color = true ↔
      getAllValidMoves size b color ≠ [] := by
  unfold playerHasAnyValidMoves
  rw [List.any_eq_true]
  constructor
  · rintro ⟨row, hrowmem, hinner⟩
    rw [List.any_eq_true] at hinner
    obtain ⟨col, hcolmem, hv⟩ := hinner
    apply List.ne_nil_of_mem (a := (⟨row, col⟩ : Coordinate))
    rw [getAllValidMoves_eq, List.mem_flatMap]
    refine ⟨row, hrowmem, ?_⟩
    rw [List.mem_flatMap]
    refine ⟨col, hcolmem, ?_⟩
    rw [if_pos hv]
    exact List.mem_singleton_self _
  · intro hne
    obtain ⟨x, hx⟩ := List.exists_mem_of_ne_nil _ hne
    rw [getAllValidMoves_eq, List.mem_flatMap] at hx
    obtain ⟨row, hrowmem, hx⟩ := hx
    rw [List.mem_flatMap] at hx
    obtain ⟨col, hcolmem, hx⟩ := hx
    by_cases hv : (validateMove size b ⟨row, col⟩ color).isSome
    · refine ⟨row, hrowmem, ?_⟩
      rw [List.any_eq_true]
      exact ⟨col, hcolmem, hv⟩
    · rw [if_neg hv] at hx
      exact absurd hx (List.not_mem_nil x)

/-- C5 (code defect, evaluated at a failing input): on board `b5` the
source's auto-move pass compares `flipCount` on `Coordinate` values, a
field that does not exist, so the `>` test is always false and the `===`
test always true: every legal move is pushed into `bestMoves` (the first
one twice).  The resulting candidate list contains the move (2,0) whose
total capture count is 1 even though the legal move (1,0) captures 2 — the
random pick is not restricted to the maximal-total-flip subset the claim
describes. -/
theorem autoMove_not_greedy :
    (⟨2, 0⟩ : Coordinate) ∈ autoBestMoves (getAllValidMoves 4 b5 Color.black) ∧
    totalFlips 4 b5 Color.black ⟨2, 0⟩ = 1 ∧
    (⟨1, 0⟩ : Coordinate) ∈ getAllValidMoves 4 b5 Color.black ∧
    totalFlips 4 b5 Color.black ⟨1, 0⟩ = 2 ∧
    autoBestMoves (getAllValidMoves 4 b5 Color.black) =
      [⟨0, 0⟩, ⟨0, 0⟩, ⟨0, 2⟩, ⟨1, 0⟩, ⟨2, 0⟩] := by
  decide

/-- C6 (code defect, evaluated at the failing inputs): the second bounds
check of `parseCoordinate` re-tests the column where it should test the
row, so an out-of-range row ("a9" on size 8, giving row index 8) and a
non-numeric row ("ax", giving a NaN row) both parse successfully instead
of failing with a CoordinateParseError; length and column violations are
rejected as the claim states. -/
theorem parseCoordinate_row_unchecked :
    parseCoordinate 8 ['a', '9'] = ParseResult.ok (some 8) 0 ∧
    ¬ ((8 : Int) < 8) ∧
    parseCoordinate 8 ['a', 'x'] = ParseResult.ok none 0 ∧
    parseCoordinate 8 ['a', '1'] = ParseResult.ok (some 0) 0 ∧
    parseCoordinate 8 ['h', '8'] = ParseResult.ok (some 7) 7 ∧
    parseCoordinate 8 ['i', '1'] = ParseResult.err "Column out of bounds" ∧
    parseCoordinate 8 ['a'] = ParseResult.err "Input must be length 2 or 3" := by
  decide

/-- C7 counterexample: size 0 lies outside [1, 26], yet the constructor —
which checks only `SIZE > 26` — succeeds. -/
theorem newGame_zero_succeeds : (newGame 0).isSome = true ∧ ¬ (1 ≤ 0) := by
  decide

/-- C7 (amended): construction succeeds for every size ≤ 26 and fails with
the board-size error exactly when size > 26; there is no lower-bound
check, so size 0 is accepted. -/
theorem newGame_isSome_iff (size : Nat) :
    (newGame size).isSome = true ↔ size ≤ 26 := by
  unfold newGame
  by_cases h : size > 26
  · rw [if_pos h]
    simp only [Option.isSome_none, Bool.false_eq_true, false_iff]
    omega
  · rw [if_neg h]
    simp only [Option.isSome_some, true_iff]
    omega

end Othello
